import Mathlib

/-!
Verification of the label-when-approved GitHub action.

The repository has two JavaScript variants of the same program.  The flat-list
variant (`src/unnamed/part_000`) is embedded below under the source names
(`processReviews`, `getReviews`, `run`, ...).  Where the second variant
(`src/index.js`) diverges, its behaviour is embedded separately under names
suffixed `_indexjs`.

External collaborators (the hosting API) are modelled as parameters: the review
list, the label list and the permission lookup function are inputs of the
embedded functions, matching the data returned by the API requests in the
source.
-/

namespace LabelWhenApproved

/-- `review.user` record: only the `login` field is read by the program. -/
structure User where
  login : String
deriving DecidableEq, Repr

/-- One raw review record as consumed by `processReviews` / `getReviews`:
the program reads `review.user.login` and `review.state`. -/
structure Review where
  user : User
  state : String
deriving DecidableEq, Repr

/-- JavaScript object assignment `reviewStates[user] = state` on a string-keyed
object: an existing key keeps its position and gets the new value, a new key is
appended.  The review-state map is this insertion-ordered association list. -/
def setState : List (String × String) → String → String → List (String × String)
  | [], u, s => [(u, s)]
  | (k, v) :: rest, u, s =>
    if k = u then (u, s) :: rest else (k, v) :: setState rest u s

/-- Reading `reviewStates[user]` (`none` models the key being absent). -/
def lookupState (m : List (String × String)) (u : String) : Option String :=
  (m.find? (fun p => p.1 == u)).map Prod.snd

/-- Body of the first loop of `processReviews` (src/unnamed/part_000 lines
54-62): record the review state, overwriting any earlier entry, when the state
is APPROVED or CHANGES_REQUESTED and — if committer approval is required — the
reviewer is a committer. -/
def processReview (committers : List String) (requireCommittersApproval : Bool)
    (reviewStates : List (String × String)) (review : Review) :
    List (String × String) :=
  if review.state = "APPROVED" ∨ review.state = "CHANGES_REQUESTED" then
    if requireCommittersApproval = true ∧ committers.contains review.user.login then
      setState reviewStates review.user.login review.state
    else if requireCommittersApproval = false then
      setState reviewStates review.user.login review.state
    else reviewStates
  else reviewStates

/-- The `reviewStates` object after the first loop of `processReviews`. -/
def buildReviewStates (reviews : List Review) (committers : List String)
    (requireCommittersApproval : Bool) : List (String × String) :=
  reviews.foldl (processReview committers requireCommittersApproval) []

/-- The `approved` array of `processReviews`: users whose recorded state is
APPROVED, in map iteration order. -/
def approvedUsers (reviewStates : List (String × String)) : List String :=
  (reviewStates.filter (fun p => p.2 == "APPROVED")).map Prod.fst

/-- The `changesRequested` array of `processReviews`. -/
def changesRequestedUsers (reviewStates : List (String × String)) : List String :=
  (reviewStates.filter (fun p => p.2 == "CHANGES_REQUESTED")).map Prod.fst

/-- `processReviews` (src/unnamed/part_000 lines 48-89): fold the reviews into
the state map, partition into approved / changes-requested, then apply the
threshold test followed by the changes-requested veto, in that order. -/
def processReviews (reviews : List Review) (committers : List String)
    (requireCommittersApproval : Bool) (numOfApprovals : Int) : Bool :=
  let reviewStates := buildReviewStates reviews committers requireCommittersApproval
  let approved := approvedUsers reviewStates
  let changesRequested := changesRequestedUsers reviewStates
  let isApproved := false
  let isApproved := if numOfApprovals ≤ (approved.length : Int) then true else isApproved
  let isApproved := if changesRequested.length > 0 then false else isApproved
  isApproved

/-- C1: for a positive threshold, `processReviews` returns true exactly when the
APPROVED count reaches the threshold and the CHANGES_REQUESTED count is zero;
any CHANGES_REQUESTED entry in the state map forces the result to false. -/
theorem processReviews_decision_iff (reviews : List Review)
    (committers : List String) (rca : Bool) (t : Int) (ht : 0 < t) :
    (processReviews reviews committers rca t = true ↔
      t ≤ ((approvedUsers (buildReviewStates reviews committers rca)).length : Int) ∧
      (changesRequestedUsers (buildReviewStates reviews committers rca)).length = 0) ∧
    (∀ p ∈ buildReviewStates reviews committers rca, p.2 = "CHANGES_REQUESTED" →
      processReviews reviews committers rca t = false) := by
  constructor
  · simp only [processReviews]
    split
    · next hcr => simp only [Bool.false_eq_true, false_iff]
                  intro h
                  omega
    · next hcr =>
        split
        · next happ => simp only [true_iff]
                       omega
        · next happ => simp only [Bool.false_eq_true, false_iff]
                       intro h
                       omega
  · intro p hp hcr
    have hmem : p.1 ∈ changesRequestedUsers (buildReviewStates reviews committers rca) := by
      refine List.mem_map.mpr ⟨p, List.mem_filter.mpr ⟨hp, ?_⟩, rfl⟩
      simp [hcr]
    have hlen : 0 < (changesRequestedUsers (buildReviewStates reviews committers rca)).length :=
      List.length_pos.mpr (List.ne_nil_of_mem hmem)
    simp only [processReviews]
    split
    · rfl
    · omega

/-- Witness for C1 at concrete inputs: with threshold 1, a single APPROVED
review yields `true`. -/
theorem processReviews_decision_iff_witness :
    processReviews [⟨⟨"alice"⟩, "APPROVED"⟩] [] false 1 = true :=
  (processReviews_decision_iff [⟨⟨"alice"⟩, "APPROVED"⟩] [] false 1 (by decide)).1.mpr
    (by decide)

/-- C10: with a zero or negative threshold the threshold test always passes, so
`processReviews` returns true exactly when no CHANGES_REQUESTED entry exists —
in particular on an empty review list. -/
theorem processReviews_nonpositive_threshold (reviews : List Review)
    (committers : List String) (rca : Bool) (t : Int) (ht : t ≤ 0) :
    (processReviews reviews committers rca t = true ↔
      (changesRequestedUsers (buildReviewStates reviews committers rca)).length = 0) ∧
    processReviews [] committers rca t = true := by
  constructor
  · simp only [processReviews]
    split
    · next hcr => simp only [Bool.false_eq_true, false_iff]
                  omega
    · next hcr =>
        split
        · next happ => simp only [true_iff]
                       omega
        · next happ => omega
  · simp only [processReviews, buildReviewStates, List.foldl_nil]
    split
    · next hcr => simp [changesRequestedUsers] at hcr
    · split
      · rfl
      · next happ => simp only [approvedUsers, List.filter_nil, List.map_nil,
                       List.length_nil, Nat.cast_zero] at happ
                     omega

/-- Witness for C10: threshold 0 on an empty review list gives `true`. -/
theorem processReviews_nonpositive_threshold_witness :
    processReviews [] [] false 0 = true :=
  (processReviews_nonpositive_threshold [] [] false 0 (by decide)).2

/-- The recording condition of the first loop of `processReviews`, as one
boolean: the state is APPROVED or CHANGES_REQUESTED, and if committer approval
is required the reviewer is in the committer list. -/
def countedRev (committers : List String) (requireCommittersApproval : Bool)
    (r : Review) : Bool :=
  (r.state == "APPROVED" || r.state == "CHANGES_REQUESTED") &&
  (!requireCommittersApproval || committers.contains r.user.login)

theorem processReview_eq_if (committers : List String) (rca : Bool)
    (m : List (String × String)) (r : Review) :
    processReview committers rca m r =
      if countedRev committers rca r then setState m r.user.login r.state else m := by
  cases rca <;> simp only [processReview, countedRev] <;> split_ifs <;> simp_all

theorem lookupState_nil (v : String) : lookupState [] v = none := rfl

theorem lookupState_cons (k w v : String) (rest : List (String × String)) :
    lookupState ((k, w) :: rest) v = if k = v then some w else lookupState rest v := by
  by_cases h : k = v
  · simp [lookupState, List.find?_cons_of_pos, h]
  · simp [lookupState, List.find?_cons_of_neg, h]

theorem lookupState_setState (m : List (String × String)) (u s v : String) :
    lookupState (setState m u s) v = if u = v then some s else lookupState m v := by
  induction m with
  | nil =>
    simp only [setState]
    rw [lookupState_cons]
  | cons p rest ih =>
    obtain ⟨k, w⟩ := p
    simp only [setState]
    by_cases hk : k = u
    · subst hk
      rw [if_pos rfl, lookupState_cons, lookupState_cons]
      by_cases h : k = v <;> simp [h]
    · rw [if_neg hk, lookupState_cons, lookupState_cons, ih]
      by_cases h : k = v
      · subst h
        have huv : ¬ u = k := fun hc => hk hc.symm
        simp [huv]
      · simp [h]

/-- The state of `u`'s most recent review that the loop records (later reviews
take precedence over earlier ones). -/
def lastCountedState (committers : List String) (requireCommittersApproval : Bool)
    (u : String) : List Review → Option String
  | [] => none
  | r :: rest =>
    match lastCountedState committers requireCommittersApproval u rest with
    | some s => some s
    | none =>
      if countedRev committers requireCommittersApproval r ∧ r.user.login = u
      then some r.state else none

theorem lookupState_foldl (committers : List String) (rca : Bool)
    (l : List Review) (u : String) : ∀ m,
    lookupState (l.foldl (processReview committers rca) m) u =
      match lastCountedState committers rca u l with
      | some s => some s
      | none => lookupState m u := by
  induction l with
  | nil => intro m; simp [lastCountedState]
  | cons r rest ih =>
    intro m
    simp only [List.foldl_cons, lastCountedState]
    rw [ih]
    cases h : lastCountedState committers rca u rest with
    | some s => simp
    | none =>
      simp only []
      rw [processReview_eq_if]
      by_cases hc : countedRev committers rca r = true
      · rw [if_pos hc, lookupState_setState]
        by_cases hu : r.user.login = u
        · simp [hc, hu]
        · simp [hc, hu]
      · simp only [Bool.not_eq_true] at hc
        simp [hc]

theorem keys_setState (m : List (String × String)) (u s : String) :
    (setState m u s).map Prod.fst =
      if u ∈ m.map Prod.fst then m.map Prod.fst else m.map Prod.fst ++ [u] := by
  induction m with
  | nil => simp [setState]
  | cons p rest ih =>
    obtain ⟨k, w⟩ := p
    simp only [setState]
    by_cases hk : k = u
    · subst hk
      simp
    · have hk' : ¬ u = k := fun hc => hk hc.symm
      simp only [if_neg hk, List.map_cons, List.mem_cons, hk', false_or, ih]
      by_cases hmem : u ∈ rest.map Prod.fst <;> simp [hmem]

theorem nodup_keys_setState (m : List (String × String)) (u s : String)
    (h : (m.map Prod.fst).Nodup) : ((setState m u s).map Prod.fst).Nodup := by
  rw [keys_setState]
  by_cases hmem : u ∈ m.map Prod.fst
  · simpa [hmem] using h
  · simp only [hmem, if_neg, if_false]
    rw [List.nodup_append]
    refine ⟨h, List.nodup_singleton u, ?_⟩
    intro a ha hau
    rw [List.mem_singleton] at hau
    exact hmem (hau ▸ ha)

theorem nodup_keys_foldl (committers : List String) (rca : Bool)
    (l : List Review) : ∀ m, (m.map Prod.fst).Nodup →
    (((l.foldl (processReview committers rca) m)).map Prod.fst).Nodup := by
  induction l with
  | nil => intro m h; simpa
  | cons r rest ih =>
    intro m h
    simp only [List.foldl_cons]
    refine ih _ ?_
    rw [processReview_eq_if]
    by_cases hc : countedRev committers rca r = true
    · rw [if_pos hc]; exact nodup_keys_setState m _ _ h
    · simp only [Bool.not_eq_true] at hc; simpa [hc]

/-- C3: the state map built by the fold holds, for each reviewer, exactly the
state of their latest counted review (later reviews overwrite earlier ones),
and its keys are free of duplicates — one state per identity.  In particular
APPROVED then CHANGES_REQUESTED ends CHANGES_REQUESTED and vice versa. -/
theorem reviewStates_latest_wins (reviews : List Review)
    (committers : List String) (rca : Bool) (u : String) :
    (lookupState (buildReviewStates reviews committers rca) u =
      lastCountedState committers rca u reviews) ∧
    ((buildReviewStates reviews committers rca).map Prod.fst).Nodup ∧
    lookupState (buildReviewStates
      [⟨⟨"a"⟩, "APPROVED"⟩, ⟨⟨"a"⟩, "CHANGES_REQUESTED"⟩] [] false) "a" =
      some "CHANGES_REQUESTED" ∧
    lookupState (buildReviewStates
      [⟨⟨"a"⟩, "CHANGES_REQUESTED"⟩, ⟨⟨"a"⟩, "APPROVED"⟩] [] false) "a" =
      some "APPROVED" := by
  refine ⟨?_, ?_, by decide, by decide⟩
  · rw [buildReviewStates, lookupState_foldl]
    cases h : lastCountedState committers rca u reviews <;> simp [lookupState]
  · exact nodup_keys_foldl committers rca reviews [] (by simp)

theorem mem_keys_of_mem_approved (m : List (String × String)) (u : String)
    (h : u ∈ approvedUsers m) : u ∈ m.map Prod.fst := by
  obtain ⟨p, hp, hfst⟩ := List.mem_map.mp h
  exact List.mem_map.mpr ⟨p, (List.mem_filter.mp hp).1, hfst⟩

theorem mem_keys_of_mem_changesRequested (m : List (String × String)) (u : String)
    (h : u ∈ changesRequestedUsers m) : u ∈ m.map Prod.fst := by
  obtain ⟨p, hp, hfst⟩ := List.mem_map.mp h
  exact List.mem_map.mpr ⟨p, (List.mem_filter.mp hp).1, hfst⟩

theorem lookupState_ne_none_of_mem_keys (m : List (String × String)) (u : String)
    (h : u ∈ m.map Prod.fst) : lookupState m u ≠ none := by
  obtain ⟨p, hp, hfst⟩ := List.mem_map.mp h
  intro hc
  have hfind : m.find? (fun q => q.1 == u) = none := by
    cases hfd : m.find? (fun q => q.1 == u) with
    | none => rfl
    | some q => rw [lookupState, hfd] at hc; cases hc
  rw [List.find?_eq_none] at hfind
  exact hfind p hp (by simp [hfst])

theorem lastCountedState_none_of_not_committer (committers : List String)
    (u : String) (hu : committers.contains u = false) (l : List Review) :
    lastCountedState committers true u l = none := by
  induction l with
  | nil => rfl
  | cons r rest ih =>
    simp only [lastCountedState, ih]
    split_ifs with h
    · obtain ⟨hc, hlogin⟩ := h
      simp only [countedRev, Bool.not_true, Bool.false_or, Bool.and_eq_true] at hc
      rw [hlogin] at hc
      rw [hc.2] at hu
      cases hu
    · rfl

theorem lastCountedState_ne_none_of_mem (committers : List String) (rca : Bool)
    (r : Review) (l : List Review) (hmem : r ∈ l)
    (hc : countedRev committers rca r = true) :
    lastCountedState committers rca r.user.login l ≠ none := by
  induction l with
  | nil => cases hmem
  | cons a rest ih =>
    simp only [lastCountedState]
    cases h : lastCountedState committers rca r.user.login rest with
    | some s => simp
    | none =>
      rcases List.mem_cons.mp hmem with heq | htail
      · subst heq
        simp [hc]
      · exact absurd h (ih htail)

/-- C4: with committer filtering on, a non-committer never enters the state map
and is counted in neither partition; with filtering off, every reviewer with an
APPROVED or CHANGES_REQUESTED review is recorded. -/
theorem committer_filtering (reviews : List Review) (committers : List String)
    (u : String) :
    (committers.contains u = false →
      lookupState (buildReviewStates reviews committers true) u = none ∧
      u ∉ approvedUsers (buildReviewStates reviews committers true) ∧
      u ∉ changesRequestedUsers (buildReviewStates reviews committers true)) ∧
    (∀ r ∈ reviews, r.state = "APPROVED" ∨ r.state = "CHANGES_REQUESTED" →
      lookupState (buildReviewStates reviews committers false) r.user.login ≠ none) := by
  constructor
  · intro hu
    have hnone : lookupState (buildReviewStates reviews committers true) u = none := by
      rw [buildReviewStates, lookupState_foldl,
        lastCountedState_none_of_not_committer committers u hu reviews]
      simp [lookupState]
    refine ⟨hnone, fun hmem => ?_, fun hmem => ?_⟩
    · exact lookupState_ne_none_of_mem_keys _ u (mem_keys_of_mem_approved _ u hmem) hnone
    · exact lookupState_ne_none_of_mem_keys _ u (mem_keys_of_mem_changesRequested _ u hmem) hnone
  · intro r hmem hstate
    rw [buildReviewStates, lookupState_foldl]
    have hc : countedRev committers false r = true := by
      rcases hstate with h | h <;> simp [countedRev, h]
    cases h : lastCountedState committers false r.user.login reviews with
    | some s => simp
    | none => exact absurd h (lastCountedState_ne_none_of_mem committers false r reviews hmem hc)

/-- Witness for C4: non-committer "alice" is dropped under filtering, recorded
without filtering. -/
theorem committer_filtering_witness :
    lookupState (buildReviewStates [⟨⟨"alice"⟩, "APPROVED"⟩] ["bob"] true) "alice" = none ∧
    lookupState (buildReviewStates [⟨⟨"alice"⟩, "APPROVED"⟩] [] false) "alice" ≠ none :=
  ⟨((committer_filtering [⟨⟨"alice"⟩, "APPROVED"⟩] ["bob"] "alice").1 (by decide)).1,
   (committer_filtering [⟨⟨"alice"⟩, "APPROVED"⟩] [] "alice").2
     ⟨⟨"alice"⟩, "APPROVED"⟩ (by decide) (Or.inl rfl)⟩

/-- Reviewer extraction in `getReviews` (src/unnamed/part_000 line 97):
`reviews && reviews.length > 0 ? reviews.map((review) => review.user.login) : []`,
reading the flat review array directly. -/
def extractReviewers (reviews : List Review) : List String :=
  if reviews.length > 0 then reviews.map (fun review => review.user.login) else []

/-- The `reviews.data` access of the `src/index.js` variant (line 89).  The
API response was already destructured into the flat array `reviews`, which has
no `data` property, so the access yields undefined, modelled as `none`. -/
def reviewsDataField (reviews : List Review) : Option (List Review) := none

/-- Reviewer extraction as written in `src/index.js` line 89:
`reviews && reviews.length > 0 ? reviews.data.map((review) => review.user.login) : []`.
On a non-empty flat array, `reviews.data` is undefined and calling `.map` on it
throws a TypeError; the failed extraction is modelled as `none`. -/
def extractReviewers_indexjs (reviews : List Review) : Option (List String) :=
  if reviews.length > 0 then
    (reviewsDataField reviews).map (fun l => l.map (fun review => review.user.login))
  else some []

/-- C2: on a non-empty flat review list the `src/index.js` extraction fails
(the `.data` access is undefined), while the flat-sequence variant succeeds —
the two variants do not treat the review list consistently. -/
theorem getReviews_flat_extraction_inconsistency :
    extractReviewers_indexjs [⟨⟨"alice"⟩, "APPROVED"⟩] = none ∧
    extractReviewers [⟨⟨"alice"⟩, "APPROVED"⟩] = ["alice"] :=
  ⟨rfl, rfl⟩

/-- The committer test of the permission loop (src/unnamed/part_000 line 111):
`r.data.permission === 'admin' || r.data.permission === 'write'`. -/
def isCommitterPerm (permissionLookup : String → String) (reviewer : String) : Bool :=
  permissionLookup reviewer == "admin" || permissionLookup reviewer == "write"

/-- The permission-checking loop of `getReviews` (src/unnamed/part_000 lines
103-117) with its mutable state explicit: `checked` is
`reviewersAlreadyChecked`, `committers` accumulates committers, and `queried`
records each reviewer the permission endpoint is actually asked about, in
order. -/
def permLoop (permissionLookup : String → String) :
    List String → List String → List String → List String →
    List String × List String × List String
  | checked, committers, queried, [] => (checked, committers, queried)
  | checked, committers, queried, reviewer :: rest =>
    if checked.contains reviewer then
      permLoop permissionLookup checked committers queried rest
    else
      permLoop permissionLookup (checked ++ [reviewer])
        (if isCommitterPerm permissionLookup reviewer
         then committers ++ [reviewer] else committers)
        (queried ++ [reviewer]) rest

/-- `getReviews` (src/unnamed/part_000 lines 91-121) with the two API calls as
parameters: the fetched review list is an input, and the permission endpoint is
the function `permissionLookup`.  Returns the review list and the committer
list as the source does, plus the loop's query log as the third component. -/
def getReviews (permissionLookup : String → String) (reviews : List Review)
    (requireCommittersApproval : Bool) :
    List Review × List String × List String :=
  let reviewers := extractReviewers reviews
  if requireCommittersApproval then
    (reviews, (permLoop permissionLookup [] [] [] reviewers).2.1,
      (permLoop permissionLookup [] [] [] reviewers).2.2)
  else
    (reviews, [], [])

/-- First occurrences of the reviewers not yet in `checked`: the reviewers the
loop actually queries, in order. -/
def newFirsts (checked : List String) : List String → List String
  | [] => []
  | r :: rest =>
    if checked.contains r then newFirsts checked rest
    else r :: newFirsts (checked ++ [r]) rest

theorem permLoop_spec (permissionLookup : String → String) (reviewers : List String) :
    ∀ checked committers queried,
    permLoop permissionLookup checked committers queried reviewers =
      (checked ++ newFirsts checked reviewers,
       committers ++ (newFirsts checked reviewers).filter (isCommitterPerm permissionLookup),
       queried ++ newFirsts checked reviewers) := by
  induction reviewers with
  | nil => intro checked committers queried; simp [permLoop, newFirsts]
  | cons r rest ih =>
    intro checked committers queried
    by_cases hc : checked.contains r = true
    · simp only [permLoop, newFirsts, hc, if_pos]
      exact ih checked committers queried
    · simp only [Bool.not_eq_true] at hc
      simp only [permLoop, newFirsts, hc, Bool.false_eq_true, if_neg, if_false]
      rw [ih]
      by_cases hp : isCommitterPerm permissionLookup r = true
      · simp [hp, List.filter_cons, List.append_assoc]
      · simp only [Bool.not_eq_true] at hp
        simp [hp, List.filter_cons, List.append_assoc]

theorem mem_newFirsts (x : String) (reviewers : List String) :
    ∀ checked, x ∈ newFirsts checked reviewers ↔ x ∈ reviewers ∧ x ∉ checked := by
  induction reviewers with
  | nil => intro checked; simp [newFirsts]
  | cons r rest ih =>
    intro checked
    by_cases hc : checked.contains r = true
    · have hrmem : r ∈ checked := by simpa using hc
      simp only [newFirsts, hc, if_pos, ih, List.mem_cons]
      constructor
      · rintro ⟨hx, hnc⟩; exact ⟨Or.inr hx, hnc⟩
      · rintro ⟨hx | hx, hnc⟩
        · exact absurd (hx ▸ hrmem) hnc
        · exact ⟨hx, hnc⟩
    · have hrmem : r ∉ checked := by simpa using hc
      simp only [Bool.not_eq_true] at hc
      simp only [newFirsts, hc, Bool.false_eq_true, if_neg, if_false, List.mem_cons, ih,
        List.mem_append, List.mem_singleton]
      constructor
      · rintro (hx | ⟨hx, hnc⟩)
        · exact ⟨Or.inl hx, hx ▸ hrmem⟩
        · exact ⟨Or.inr hx, fun hmem => hnc (Or.inl hmem)⟩
      · rintro ⟨hx | hx, hnc⟩
        · exact Or.inl hx
        · by_cases hxr : x = r
          · exact Or.inl hxr
          · refine Or.inr ⟨hx, ?_⟩
            intro hmem
            rcases hmem with h1 | h2 | h3
            · exact hnc h1
            · exact hxr h2
            · cases h3

theorem nodup_newFirsts (reviewers : List String) :
    ∀ checked, (newFirsts checked reviewers).Nodup := by
  induction reviewers with
  | nil => intro checked; simp [newFirsts]
  | cons r rest ih =>
    intro checked
    by_cases hc : checked.contains r = true
    · simpa only [newFirsts, hc, if_pos] using ih checked
    · simp only [Bool.not_eq_true] at hc
      simp only [newFirsts, hc, Bool.false_eq_true, if_neg, if_false, List.nodup_cons]
      refine ⟨fun hmem => ?_, ih (checked ++ [r])⟩
      have := (mem_newFirsts r rest (checked ++ [r])).mp hmem
      exact this.2 (List.mem_append.mpr (Or.inr (List.mem_singleton.mpr rfl)))

/-- C6: with committer filtering on, each distinct reviewer is queried at most
once (the cache is consulted first) and the committer list holds exactly the
distinct reviewers whose permission is admin or write; with filtering off, no
permission query happens and the committer list is empty. -/
theorem permission_lookup_cached (permissionLookup : String → String)
    (reviews : List Review) (u : String) :
    ((getReviews permissionLookup reviews true).2.2.count u ≤ 1) ∧
    (u ∈ (getReviews permissionLookup reviews true).2.1 ↔
      u ∈ extractReviewers reviews ∧ isCommitterPerm permissionLookup u = true) ∧
    ((getReviews permissionLookup reviews true).2.1.Nodup) ∧
    ((getReviews permissionLookup reviews false).2.1 = [] ∧
     (getReviews permissionLookup reviews false).2.2 = []) := by
  have hnodup : (newFirsts [] (extractReviewers reviews)).Nodup :=
    nodup_newFirsts (extractReviewers reviews) []
  have hgr : getReviews permissionLookup reviews true =
      (reviews,
       (newFirsts [] (extractReviewers reviews)).filter (isCommitterPerm permissionLookup),
       newFirsts [] (extractReviewers reviews)) := by
    simp [getReviews, permLoop_spec]
  refine ⟨?_, ?_, ?_, by simp [getReviews]⟩
  · rw [hgr]
    exact List.nodup_iff_count_le_one.mp hnodup u
  · rw [hgr]
    simp only [List.mem_filter, mem_newFirsts, List.not_mem_nil, not_false_iff, and_true]
  · rw [hgr]
    exact hnodup.filter _

/-- JavaScript `String(boolean)`: "true" or "false". -/
def jsStringOfBool (b : Bool) : String := if b then "true" else "false"

/-- The output section of `run` (src/unnamed/part_000 lines 216-218): the three
`verboseOutput` calls in order, as the (name, value) pairs handed to
`core.setOutput`. -/
def setOutputs (isApproved shouldLabelBeSet shouldLabelBeRemoved : Bool) :
    List (String × String) :=
  [("isApproved", jsStringOfBool isApproved),
   ("shouldLabelBeSet", jsStringOfBool shouldLabelBeSet),
   ("shouldLabelBeRemoved", jsStringOfBool shouldLabelBeRemoved)]

/-- The output section of the `src/index.js` variant (lines 206-208).  After
setting `isApproved` it evaluates the identifiers `isLabelShouldBeSet` and
`isLabelShouldBeRemoved`, which are bound nowhere in that file (the computed
flags are the variables `shouldLabelBeSet` / `shouldLabelBeRemoved`), so a
ReferenceError is raised: only the first output is ever set, and the two
further output names would have been `labelSet` / `labelRemoved`. -/
def setOutputs_indexjs (isApproved : Bool) :
    List (String × String) × Except String Unit :=
  ([("isApproved", jsStringOfBool isApproved)],
   Except.error "isLabelShouldBeSet is not defined")

/-- C5 divergence: the flat-sequence variant sets the three outputs
`isApproved`, `shouldLabelBeSet`, `shouldLabelBeRemoved`; the `src/index.js`
variant sets only `isApproved` and then fails on an undefined identifier. -/
theorem run_outputs_divergence :
    setOutputs true false false =
      [("isApproved", "true"), ("shouldLabelBeSet", "false"),
       ("shouldLabelBeRemoved", "false")] ∧
    setOutputs_indexjs true =
      ([("isApproved", "true")], Except.error "isLabelShouldBeSet is not defined") :=
  ⟨rfl, rfl⟩

/-- The outbound label/comment API calls `run` can make. -/
inductive SideEffect
  | setLabelCall (label : String)
  | addCommentCall (body : String)
  | removeLabelCall (label : String)
deriving DecidableEq, Repr

/-- The label/comment section of `run` (src/unnamed/part_000 lines 199-213):
both flags start false; when a real label is configured they are computed from
the approval decision and the current label names, and at most one of the
`setLabel` (plus optional comment) / `removeLabel` calls is made. -/
def labelStage (isApproved : Bool) (labelNames : List String)
    (userLabel comment : String) (removeLabelWhenApprovalMissing : Bool) :
    Bool × Bool × List SideEffect :=
  if userLabel ≠ "not set" then
    let shouldLabelBeSet := isApproved && !(labelNames.contains userLabel)
    let shouldLabelBeRemoved := !isApproved && labelNames.contains userLabel &&
      removeLabelWhenApprovalMissing
    let effects :=
      if shouldLabelBeSet then
        SideEffect.setLabelCall userLabel ::
          (if comment ≠ "" then [SideEffect.addCommentCall comment] else [])
      else if shouldLabelBeRemoved then [SideEffect.removeLabelCall userLabel]
      else []
    (shouldLabelBeSet, shouldLabelBeRemoved, effects)
  else (false, false, [])

/-- Label-touching calls among a list of side effects. -/
def labelCalls (effects : List SideEffect) : List SideEffect :=
  effects.filter fun e =>
    match e with
    | SideEffect.setLabelCall _ => true
    | SideEffect.removeLabelCall _ => true
    | SideEffect.addCommentCall _ => false

/-- C7: the two orchestration flags are never both true — setting requires the
approval decision and the label absent, removing requires its negation, the
label present and the remove flag — and at most one label-touching API call is
made. -/
theorem label_flags_mutually_exclusive (isApproved : Bool)
    (labelNames : List String) (userLabel comment : String) (removeFlag : Bool) :
    ((labelStage isApproved labelNames userLabel comment removeFlag).1 &&
      (labelStage isApproved labelNames userLabel comment removeFlag).2.1) = false ∧
    ((labelStage isApproved labelNames userLabel comment removeFlag).1 = true ↔
      userLabel ≠ "not set" ∧ isApproved = true ∧
        labelNames.contains userLabel = false) ∧
    ((labelStage isApproved labelNames userLabel comment removeFlag).2.1 = true ↔
      userLabel ≠ "not set" ∧ isApproved = false ∧
        labelNames.contains userLabel = true ∧ removeFlag = true) ∧
    (labelCalls (labelStage isApproved labelNames userLabel comment removeFlag).2.2).length ≤ 1 := by
  by_cases hl : userLabel = "not set" <;>
    cases isApproved <;>
    by_cases hcont : userLabel ∈ labelNames <;>
    cases removeFlag <;>
    by_cases hcom : comment = "" <;>
    simp [labelStage, labelCalls, hl, hcont, hcom]

/-- Outcome of the trigger-context resolution of `run` (src/unnamed/part_000
lines 152-172). -/
inductive EventResolution
  | proceedFromPayload (pullRequestNumber : Int)
  | proceedFromInput (pullRequestNumberInput : String)
  | softExit
  | fatal (message : String)
deriving DecidableEq, Repr

/-- The message thrown for a triggering event the action does not support. -/
def fatalEventMessage (eventName : String) : String :=
  "This action is only useful in pull_request_review or workflow_run triggered runs and you used it in " ++ eventName

/-- The event dispatch of `run`: `pull_request_review` takes the PR number from
the payload and throws when it is absent; `workflow_run` needs the explicit
`pullRequestNumber` input and, when it is missing, warns and returns early; any
other event name throws a configuration error. -/
def resolveEvent (eventName : String) (payloadPullRequestNumber : Option Int)
    (pullRequestNumberInput : String) : EventResolution :=
  if eventName = "pull_request_review" then
    match payloadPullRequestNumber with
    | some n => EventResolution.proceedFromPayload n
    | none => EventResolution.fatal "Could not find PR number from context, exiting"
  else if eventName = "workflow_run" then
    if pullRequestNumberInput = "not set" then EventResolution.softExit
    else EventResolution.proceedFromInput pullRequestNumberInput
  else EventResolution.fatal (fatalEventMessage eventName)

/-- Observable result of one `run`: a clean early return with no outputs, a
failure message handed to `core.setFailed` (no outputs either — the throw
happens before the output section), or a completed run with its outputs and
its label/comment side effects. -/
inductive RunResult
  | earlyExit
  | failed (message : String)
  | success (outputs : List (String × String)) (effects : List SideEffect)
deriving DecidableEq, Repr

/-- `run` (src/unnamed/part_000 lines 123-222) over explicit inputs: the
configuration inputs, the event context, and the data the API requests return
(the pull request's label names, its reviews, and the permission lookup).
Input defaulting follows the source: an empty `label` input becomes the
sentinel "not set", as does an empty `pullRequestNumber` input. -/
def run (eventName : String) (payloadPullRequestNumber : Option Int)
    (labelInput : String)
    (requireCommittersApproval removeLabelWhenApprovalMissing : Bool)
    (comment : String) (pullRequestNumberInput : String) (numOfApprovals : Int)
    (labelNames : List String) (reviews : List Review)
    (permissionLookup : String → String) : RunResult :=
  let userLabel := if labelInput = "" then "not set" else labelInput
  let prInput := if pullRequestNumberInput = "" then "not set" else pullRequestNumberInput
  match resolveEvent eventName payloadPullRequestNumber prInput with
  | EventResolution.softExit => RunResult.earlyExit
  | EventResolution.fatal message => RunResult.failed message
  | EventResolution.proceedFromPayload _ | EventResolution.proceedFromInput _ =>
    let committers := (getReviews permissionLookup reviews requireCommittersApproval).2.1
    let isApproved := processReviews reviews committers requireCommittersApproval numOfApprovals
    let st := labelStage isApproved labelNames userLabel comment removeLabelWhenApprovalMissing
    RunResult.success (setOutputs isApproved st.1 st.2.1) st.2.2

/-- C8: a workflow_run trigger without an explicit pullRequestNumber input is
the one clean early exit (no outputs, no failure); it is the only input
combination producing that result, and any unsupported event name fails with
the configuration-error message. -/
theorem workflow_run_soft_exit (eventName : String) (payload : Option Int)
    (labelInput : String) (rca rm : Bool) (comment prInput : String) (t : Int)
    (labelNames : List String) (reviews : List Review)
    (permissionLookup : String → String) :
    (run "workflow_run" payload labelInput rca rm comment "" t labelNames reviews
        permissionLookup = RunResult.earlyExit ∧
     run "workflow_run" payload labelInput rca rm comment "not set" t labelNames reviews
        permissionLookup = RunResult.earlyExit) ∧
    (run eventName payload labelInput rca rm comment prInput t labelNames reviews
        permissionLookup = RunResult.earlyExit →
      eventName = "workflow_run" ∧ (prInput = "" ∨ prInput = "not set")) ∧
    (eventName ≠ "pull_request_review" → eventName ≠ "workflow_run" →
      run eventName payload labelInput rca rm comment prInput t labelNames reviews
        permissionLookup = RunResult.failed (fatalEventMessage eventName)) := by
  refine ⟨⟨?_, ?_⟩, ?_, ?_⟩
  · simp [run, resolveEvent]
  · simp [run, resolveEvent]
  · intro hrun
    by_cases he : eventName = "pull_request_review"
    · subst he
      cases payload with
      | some n => simp [run, resolveEvent] at hrun
      | none => simp [run, resolveEvent] at hrun
    · by_cases hw : eventName = "workflow_run"
      · subst hw
        refine ⟨rfl, ?_⟩
        by_cases hpr : prInput = ""
        · exact Or.inl hpr
        · by_cases hns : prInput = "not set"
          · exact Or.inr hns
          · simp [run, resolveEvent, hpr, hns] at hrun
      · simp [run, resolveEvent, he, hw] at hrun
  · intro he hw
    simp [run, resolveEvent, he, hw]

/-- Witness for C8: concrete soft exit and concrete fatal event. -/
theorem workflow_run_soft_exit_witness :
    run "workflow_run" none "lbl" false false "" "" 1 [] [] (fun _ => "read") =
      RunResult.earlyExit ∧
    run "push" none "lbl" false false "" "7" 1 [] [] (fun _ => "read") =
      RunResult.failed (fatalEventMessage "push") :=
  ⟨(workflow_run_soft_exit "workflow_run" none "lbl" false false "" "" 1 [] []
      (fun _ => "read")).1.1,
   (workflow_run_soft_exit "push" none "lbl" false false "" "7" 1 [] []
      (fun _ => "read")).2.2 (by decide) (by decide)⟩

/-- C9: when the label input is empty or the literal string "not set", a
completed run makes no label or comment API call and reports both label flags
as false — a label actually named "not set" collides with the sentinel and
disables all labeling. -/
theorem sentinel_label_disables_labeling (eventName : String)
    (payload : Option Int) (labelInput : String) (rca rm : Bool)
    (comment prInput : String) (t : Int) (labelNames : List String)
    (reviews : List Review) (permissionLookup : String → String)
    (hlabel : labelInput = "" ∨ labelInput = "not set") :
    ∀ outputs effects,
      run eventName payload labelInput rca rm comment prInput t labelNames reviews
        permissionLookup = RunResult.success outputs effects →
      effects = [] ∧ ("shouldLabelBeSet", "false") ∈ outputs ∧
        ("shouldLabelBeRemoved", "false") ∈ outputs := by
  intro outputs effects hrun
  have hsent : (if labelInput = "" then "not set" else labelInput) = "not set" := by
    rcases hlabel with h | h <;> simp [h]
  have hstage : ∀ a : Bool,
      labelStage a labelNames (if labelInput = "" then "not set" else labelInput) comment rm
        = (false, false, []) := by
    intro a
    rw [hsent]
    simp [labelStage]
  rw [run] at hrun
  cases hres : resolveEvent eventName payload
      (if prInput = "" then "not set" else prInput) with
  | proceedFromPayload n =>
    rw [hres] at hrun
    simp only [hstage] at hrun
    rcases hrun with ⟨rfl, rfl⟩
    simp [setOutputs, jsStringOfBool]
  | proceedFromInput s =>
    rw [hres] at hrun
    simp only [hstage] at hrun
    rcases hrun with ⟨rfl, rfl⟩
    simp [setOutputs, jsStringOfBool]
  | softExit => rw [hres] at hrun; cases hrun
  | fatal message => rw [hres] at hrun; cases hrun

/-- Witness for C9 at a concrete completed run with the label input empty. -/
theorem sentinel_label_disables_labeling_witness :
    ([] : List SideEffect) = [] ∧
    ("shouldLabelBeSet", "false") ∈ setOutputs false false false ∧
    ("shouldLabelBeRemoved", "false") ∈ setOutputs false false false :=
  sentinel_label_disables_labeling "pull_request_review" (some 1) "" false false
    "" "" 1 ["ok to merge"] [] (fun _ => "read") (Or.inl rfl)
    (setOutputs false false false) [] (by decide)

end LabelWhenApproved
